import Mathlib

/-!
Formal model of the voice-model TTS subsystem (`src/voice-model`).

The Python sources are embedded shallowly:

* `src/config.py`   → `AudioConfig`, `ModelConfig`, `TTSConfig`, `default_config`
* `src/dataset.py`  → `TextProcessor` (character/index maps), `normalize_mel`,
                      `load_metadata` (manifest loading), `collate_gate`
                      (stop/gate target of `collate_fn`)
* `src/model.py`    → `DecoderSim` and `Decoder.inference` (the autoregressive
                      decode loop with its gate-threshold stop condition)
* `src/train.py` and `train_voice_model.py`
                    → `compute_loss`, the epoch/batch training loop with an
                      interrupt schedule, and the `KeyboardInterrupt` handler
* `src/inference.py` → `synth_init` (`TTSSynthesizer.__init__`)

Machine floats are modelled by exact rationals or reals; Python dictionaries by
association lists with last-insertion-wins lookup; the file system by explicit
existence predicates; `KeyboardInterrupt` by an explicit interrupt schedule
checked at batch boundaries.
-/

/- ## Configuration (src/config.py) -/

/-- `AudioConfig` from `src/config.py` (floats modelled as rationals). -/
structure AudioConfig where
  sample_rate : ℕ := 22050
  n_fft : ℕ := 1024
  hop_length : ℕ := 256
  win_length : ℕ := 1024
  n_mels : ℕ := 80
  mel_fmin : ℚ := 0
  mel_fmax : ℚ := 8000
  deriving DecidableEq

/-- The decoder-related part of `ModelConfig` from `src/config.py`. -/
structure ModelConfig where
  max_decoder_steps : ℕ := 1000
  gate_threshold : ℚ := 1/2
  deriving DecidableEq

/-- `TTSConfig` from `src/config.py`: audio and model sub-configs plus the
text-processing vocabulary (`characters`) and the padding symbol. -/
structure TTSConfig where
  audio : AudioConfig
  model : ModelConfig
  characters : List Char
  pad_token : Char
  deriving DecidableEq

/-- `TTSConfig.vocab_size`: `len(self.characters) + 1` (`+1` for the pad token). -/
def vocab_size (config : TTSConfig) : ℕ := config.characters.length + 1

/-- `TTSConfig.n_mels` property: `self.audio.n_mels`. -/
def TTSConfig.n_mels (config : TTSConfig) : ℕ := config.audio.n_mels

/-- The default character set
`"ABCDEFGHIJKLMNOPQRSTUVWXYZabcdefghijklmnopqrstuvwxyz0123456789 .,!?'-"`;
`Char.ofNat 39` is the apostrophe that sits between the question mark and the
hyphen in the source string. -/
def default_characters : List Char :=
  ("ABCDEFGHIJKLMNOPQRSTUVWXYZabcdefghijklmnopqrstuvwxyz0123456789 .,!?").toList
    ++ [Char.ofNat 39, Char.ofNat 45]

/-- The default `TTSConfig()` (all dataclass defaults). -/
def default_config : TTSConfig :=
  { audio := {}
    model := {}
    characters := default_characters
    pad_token := Char.ofNat 95 }  -- the underscore pad token "_"

/- ## Python dictionaries as association lists -/

/-- Lookup in an association list where LATER entries override earlier ones,
mirroring Python `dict` assignment order (`d[k] = v` overwrites). -/
def dictLookup {α β : Type} [DecidableEq α] : List (α × β) → α → Option β
  | [], _ => none
  | (k, v) :: rest, c =>
    match dictLookup rest c with
    | some w => some w
    | none => if c = k then some v else none

/-- First-occurrence key order of an association list, mirroring Python
`dict` key insertion order (a key keeps its first position when overwritten). -/
def firstKeys {α β : Type} [DecidableEq α] : List (α × β) → List α
  | [] => []
  | (k, _) :: rest => k :: (firstKeys rest).filter (fun x => !(x == k))

/-- The `.items()` view of the Python dict built by inserting the pairs of `l`
in order: first-occurrence key order, each key paired with its final value. -/
def pythonItems {α β : Type} [DecidableEq α] (l : List (α × β)) : List (α × β) :=
  (firstKeys l).filterMap (fun k => (dictLookup l k).map (fun v => (k, v)))

/- ## TextProcessor (src/dataset.py) -/

/-- The insertion sequence building `TextProcessor.char_to_idx`:
`{self.pad_token: 0}` followed by `char_to_idx[char] = i + 1` for
`i, char in enumerate(self.characters)`. -/
def char_to_idx_items (config : TTSConfig) : List (Char × ℕ) :=
  (config.pad_token, 0) :: config.characters.enum.map (fun p => (p.2, p.1 + 1))

/-- `TextProcessor.char_to_idx` as a partial map. -/
def char_to_idx (config : TTSConfig) (c : Char) : Option ℕ :=
  dictLookup (char_to_idx_items config) c

/-- `TextProcessor.idx_to_char = {v: k for k, v in self.char_to_idx.items()}`. -/
def idx_to_char (config : TTSConfig) (i : ℕ) : Option Char :=
  dictLookup ((pythonItems (char_to_idx_items config)).map Prod.swap) i

/-- `TextProcessor.text_to_sequence`: append `char_to_idx[char]` when
`char in self.char_to_idx`, silently skipping unknown characters. -/
def text_to_sequence (config : TTSConfig) (text : List Char) : List ℕ :=
  text.filterMap (char_to_idx config)

/-- `TextProcessor.sequence_to_text`: `join(idx_to_char.get(idx, ""))` — an
unknown index contributes the empty string, i.e. is dropped. -/
def sequence_to_text (config : TTSConfig) (sequence : List ℕ) : List Char :=
  sequence.filterMap (idx_to_char config)

/-- The key set of `char_to_idx`: the pad token and the configured characters. -/
def vocab (config : TTSConfig) : List Char :=
  config.pad_token :: config.characters

/- ## Manifest loading (LJSpeechDataset._load_metadata, src/dataset.py) -/

/-- `FileNotFoundError("Metadata not found: ...")` raised when the manifest
path does not exist. -/
inductive DatasetError
  | manifestNotFound
  deriving DecidableEq

/-- Python `str.isspace` on the ASCII whitespace characters stripped by
`str.strip()`: space, tab, newline, carriage return, vertical tab, form feed
(given by their code points). -/
def pyIsSpace (c : Char) : Bool :=
  c == Char.ofNat 32 || c == Char.ofNat 9 || c == Char.ofNat 10
    || c == Char.ofNat 13 || c == Char.ofNat 11 || c == Char.ofNat 12

/-- Python `str.strip()`: drop whitespace from both ends. -/
def pyStrip (s : List Char) : List Char :=
  ((s.dropWhile pyIsSpace).reverse.dropWhile pyIsSpace).reverse

/-- Python `str.split(sep)` for a one-character separator: split at every
occurrence, keeping empty fields (`"".split(sep) == [""]`). -/
def pySplitOn (sep : Char) : List Char → List (List Char)
  | [] => [[]]
  | c :: rest =>
    let r := pySplitOn sep rest
    if c == sep then [] :: r
    else
      match r with
      | [] => [[c]]
      | g :: gs => (c :: g) :: gs

/-- One line of the manifest: `parts = line.strip().split("|")` (the separator
is the pipe, code point 124); the row is kept when `len(parts) >= 2`, as
`(parts[0], parts[1])`. Strings are modelled as character lists. -/
def parseLine (line : List Char) : Option (List Char × List Char) :=
  match pySplitOn (Char.ofNat 124) (pyStrip line) with
  | audio_path :: text :: _ => some (audio_path, text)
  | _ => none

/-- Python truthiness test `if max_samples and i >= max_samples` controlling
the early `break` (`max_samples = 0` is falsy, so it imposes no cap). -/
def capReached (max_samples : Option ℕ) (i : ℕ) : Bool :=
  match max_samples with
  | none => false
  | some m => decide (m ≠ 0) && decide (m ≤ i)

/-- The enumerated line loop of `_load_metadata`: break at the cap, parse each
line, keep rows whose audio path exists on disk. -/
def load_loop (fs_exists : List Char → Bool) (max_samples : Option ℕ) :
    ℕ → List (List Char) → List (List Char × List Char)
  | _, [] => []
  | i, line :: rest =>
    if capReached max_samples i then []
    else
      match parseLine line with
      | some (audio_path, text) =>
        if fs_exists audio_path then
          (audio_path, text) :: load_loop fs_exists max_samples (i + 1) rest
        else
          load_loop fs_exists max_samples (i + 1) rest
      | none => load_loop fs_exists max_samples (i + 1) rest

/-- `LJSpeechDataset._load_metadata`: raise if the manifest path is missing,
otherwise run the line loop over the manifest content. `fs_exists` models
`Path(...).exists()`, `manifestLines` the lines of the manifest file. -/
def load_metadata (fs_exists : List Char → Bool) (manifestLines : List (List Char))
    (metadata_path : List Char) (max_samples : Option ℕ) :
    Except DatasetError (List (List Char × List Char)) :=
  if fs_exists metadata_path then
    .ok (load_loop fs_exists max_samples 0 manifestLines)
  else
    .error .manifestNotFound

/-- `LJSpeechDataset.__len__`: `len(self.samples)`. -/
def dataset_len (samples : List (List Char × List Char)) : ℕ := samples.length

/-- The lines actually processed by the loop starting at index `i`: everything
when the cap is falsy, the first `m - i` lines when it is `some m` with
`m ≠ 0`. -/
def effTake (max_samples : Option ℕ) (i : ℕ) (lines : List (List Char)) :
    List (List Char) :=
  match max_samples with
  | none => lines
  | some m => if m = 0 then lines else lines.take (m - i)

/- ## Batch collation (collate_fn, src/dataset.py) -/

/-- Normalised start of the Python slice `a[start:]` for a sequence of length
`len`: negative starts count from the end (clamped at 0), positive starts are
clamped at `len`. -/
def slice_start (start : ℤ) (len : ℕ) : ℕ :=
  if start < 0 then ((len : ℤ) + start).toNat else min len start.toNat

/-- Row `i` of `gate_padded`: zeros, then `gate_padded[i, mel_len-1:] = 1.0`. -/
def gate_row (mel_len max_mel_len : ℕ) : List ℚ :=
  (List.range max_mel_len).map
    (fun j => if slice_start ((mel_len : ℤ) - 1) max_mel_len ≤ j then 1 else 0)

/-- The stop/gate target built by `collate_fn`, as a function of the batch's
mel lengths: `max_mel_len = max(item["mel_length"] for item in batch)` and one
`gate_row` per sample. -/
def collate_gate (mel_lengths : List ℕ) : List (List ℚ) :=
  mel_lengths.map (fun mel_len => gate_row mel_len (mel_lengths.foldr max 0))

/-- Entry `j` of row `text_padded[i]` for a sample with text sequence `seq`:
the tensor is zero-initialised and `text_padded[i, :text_len] = item["text"]`. -/
def text_padded_entry (seq : List ℕ) (j : ℕ) : ℕ := seq.getD j 0

/- ## Mel normalization (AudioProcessor.normalize_mel, src/dataset.py) -/

/-- `tensor.mean()` of a flattened tensor. -/
noncomputable def tmean (l : List ℝ) : ℝ := l.sum / l.length

/-- `tensor.std()` of a flattened tensor: the unbiased sample standard
deviation `sqrt(sum((x - mean)^2) / (n - 1))`, torch's default. -/
noncomputable def tstd (l : List ℝ) : ℝ :=
  Real.sqrt ((l.map (fun x => (x - tmean l) ^ 2)).sum / ((l.length : ℝ) - 1))

/-- The `1e-8` stabiliser in `normalize_mel`. -/
noncomputable def nrmEps : ℝ := 1 / 10 ^ 8

/-- `AudioProcessor.normalize_mel`: `(mel - mel.mean()) / (mel.std() + 1e-8)`. -/
noncomputable def normalize_mel (mel : List ℝ) : List ℝ :=
  mel.map (fun x => (x - tmean mel) / (tstd mel + nrmEps))

/- ## Decoder.inference (src/model.py) -/

/-- `torch.sigmoid`. -/
noncomputable def sigmoid (x : ℝ) : ℝ := 1 / (1 + Real.exp (-x))

/-- One decoder, specialised to a single utterance: the fields capture
`n_mels`, `max_decoder_steps` and `gate_threshold` from the config, and
`decode_step` is `Decoder.decode_step` with the encoder `memory`, the padding
`mask` and the network weights already baked in — it maps the current
`decoder_input` frame and the recurrent states to
`(mel_output, gate_output, new_states)`. `init_state` is the all-zero state
tuple produced at the start of `Decoder.inference`. A mel frame is a vector of
`n_mels` reals; the batch dimension is 1 (inference calls `.item()` on the
gate, which requires a single element). -/
structure DecoderSim (σ : Type) where
  n_mels : ℕ
  max_decoder_steps : ℕ
  gate_threshold : ℝ
  decode_step : List ℝ → σ → List ℝ × ℝ × σ
  init_state : σ

/-- `Decoder.get_go_frame`: an all-zero initial frame. -/
def DecoderSim.go_frame {σ : Type} (D : DecoderSim σ) : List ℝ :=
  List.replicate D.n_mels 0

open scoped Classical in
/-- The body of the `for _ in range(self.max_decoder_steps)` loop of
`Decoder.inference`: run `decode_step`, append `(mel_output, gate_output)`,
`break` when `torch.sigmoid(gate_output).item() > self.gate_threshold`, and
otherwise continue with `decoder_input = mel_output`. -/
noncomputable def inferSteps {σ : Type} (D : DecoderSim σ) :
    ℕ → List ℝ → σ → List (List ℝ × ℝ)
  | 0, _, _ => []
  | fuel + 1, decoder_input, states =>
    let r := D.decode_step decoder_input states
    if D.gate_threshold < sigmoid r.2.1 then [(r.1, r.2.1)]
    else (r.1, r.2.1) :: inferSteps D fuel r.1 r.2.2

/-- `Decoder.inference`: the stacked `mel_outputs` (a list of frames, one per
executed loop iteration) and the concatenated `gate_outputs`. -/
noncomputable def Decoder.inference {σ : Type} (D : DecoderSim σ) :
    List (List ℝ) × List ℝ :=
  let steps := inferSteps D D.max_decoder_steps D.go_frame D.init_state
  (steps.map Prod.fst, steps.map Prod.snd)

/-- The "free-running" trajectory: `(decoder_input, states)` in force at the
start of loop iteration `t` if no `break` were ever taken. Since the `break`
only exits the loop, the values produced by iteration `t` of the actual loop,
when it runs, coincide with this trajectory. -/
noncomputable def runFree {σ : Type} (D : DecoderSim σ) : ℕ → List ℝ × σ
  | 0 => (D.go_frame, D.init_state)
  | t + 1 =>
    let r := D.decode_step (runFree D t).1 (runFree D t).2
    (r.1, r.2.2)

/-- The mel frame produced by loop iteration `t` (0-based). -/
noncomputable def melAt {σ : Type} (D : DecoderSim σ) (t : ℕ) : List ℝ :=
  (D.decode_step (runFree D t).1 (runFree D t).2).1

/-- The gate logit produced by loop iteration `t` (0-based). -/
noncomputable def gateAt {σ : Type} (D : DecoderSim σ) (t : ℕ) : ℝ :=
  (D.decode_step (runFree D t).1 (runFree D t).2).2.1

/-- The stop condition of iteration `t`: `sigmoid(gate_output) > gate_threshold`. -/
noncomputable def stopAt {σ : Type} (D : DecoderSim σ) (t : ℕ) : Prop :=
  D.gate_threshold < sigmoid (gateAt D t)

/-- The loop of `Decoder.inference` with `fuel` remaining iterations, entered
at the trajectory point of iteration `t`. `inferFrom D K 0` is the loop run
by `Decoder.inference` itself. -/
noncomputable def inferFrom {σ : Type} (D : DecoderSim σ) (fuel t : ℕ) :
    List (List ℝ × ℝ) :=
  inferSteps D fuel (runFree D t).1 (runFree D t).2

/-- A degenerate concrete decoder (one mel channel, constant step) used to
instantiate the decoder theorems. -/
noncomputable def constSim : DecoderSim Unit :=
  { n_mels := 1
    max_decoder_steps := 3
    gate_threshold := 1/2
    decode_step := fun _ _ => ([0], 1, ())
    init_state := () }

/- ## Loss composition (TTSTrainer.compute_loss, src/train.py) -/

/-- `nn.MSELoss()` with mean reduction on flattened same-shape tensors. -/
noncomputable def mse_loss (output target : List ℝ) : ℝ :=
  ((output.zip target).map (fun p => (p.1 - p.2) ^ 2)).sum / (output.zip target).length

/-- `nn.BCEWithLogitsLoss()` with mean reduction:
`mean(-(y * log(sigmoid x) + (1 - y) * log(1 - sigmoid x)))`. -/
noncomputable def bce_with_logits_loss (output target : List ℝ) : ℝ :=
  ((output.zip target).map
    (fun p => -(p.2 * Real.log (sigmoid p.1) + (1 - p.2) * Real.log (1 - sigmoid p.1)))).sum
    / (output.zip target).length

/-- The dictionary returned by `TTSTrainer.compute_loss`. -/
structure LossDict where
  total : ℝ
  mel : ℝ
  mel_postnet : ℝ
  gate : ℝ

/-- `TTSTrainer.compute_loss`: the two mel MSE terms against the same target,
the gate BCE term, and their plain sum as the total. -/
noncomputable def compute_loss (mel_outputs mel_outputs_postnet gate_outputs
    mel_target gate_target : List ℝ) : LossDict :=
  let mel_loss := mse_loss mel_outputs mel_target
  let mel_postnet_loss := mse_loss mel_outputs_postnet mel_target
  let gate_loss := bce_with_logits_loss gate_outputs gate_target
  { total := mel_loss + mel_postnet_loss + gate_loss
    mel := mel_loss
    mel_postnet := mel_postnet_loss
    gate := gate_loss }

/- ## Training loop and interrupt handling
     (TTSTrainer.train, src/train.py; main, train_voice_model.py) -/

/-- The mutable state of a `TTSTrainer` that `save_checkpoint` persists.
Model, optimizer and scheduler states are abstract types. `best_loss` starts
at `float("inf")`, modelled by `⊤ : WithTop ℚ`. -/
structure TrainerState (M O S : Type) where
  epoch : ℕ
  global_step : ℕ
  model : M
  optimizer : O
  scheduler : S
  best_loss : WithTop ℚ
  config : TTSConfig

/-- The checkpoint dictionary written by `TTSTrainer.save_checkpoint`. -/
structure Checkpoint (M O S : Type) where
  epoch : ℕ
  global_step : ℕ
  model_state_dict : M
  optimizer_state_dict : O
  scheduler_state_dict : S
  config : TTSConfig
  best_loss : WithTop ℚ

/-- `TTSTrainer.save_checkpoint`: bundle the current trainer state. -/
def save_checkpoint {M O S : Type} (t : TrainerState M O S) : Checkpoint M O S :=
  { epoch := t.epoch
    global_step := t.global_step
    model_state_dict := t.model
    optimizer_state_dict := t.optimizer
    scheduler_state_dict := t.scheduler
    config := t.config
    best_loss := t.best_loss }

/-- File names under which checkpoints are written. -/
inductive CkptPath
  | epochFile (n : ℕ)   -- checkpoints/checkpoint_epoch_{n}.pt
  | bestFile            -- output/best_model.pt
  | finalFile           -- output/final_model.pt
  | interruptedFile     -- checkpoints/interrupted_checkpoint.pt
  deriving DecidableEq

/-- The per-run dynamics abstracted from the tensors: `batch_step` is the
effect of `TTSTrainer.train_step` on model and optimizer state, indexed by the
global step, returning the batch's total loss; `sched_step` is
`self.scheduler.step(avg_loss)`; `interrupt` tells whether a
`KeyboardInterrupt` arrives at the boundary before the batch with the given
global step. -/
structure TrainDynamics (M O S : Type) where
  batch_step : ℕ → M → O → M × O × ℚ
  sched_step : S → ℚ → S
  interrupt : ℕ → Bool

/-- The inner batch loop of `TTSTrainer.train_epoch`: run `num_batches`
training steps, accumulating the epoch's total loss; a `KeyboardInterrupt` at
a batch boundary aborts with the trainer state at that moment. -/
def run_batches {M O S : Type} (dyn : TrainDynamics M O S) :
    ℕ → TrainerState M O S → ℚ → Except (TrainerState M O S) (TrainerState M O S × ℚ)
  | 0, t, acc => .ok (t, acc)
  | n + 1, t, acc =>
    if dyn.interrupt t.global_step then .error t
    else
      let r := dyn.batch_step t.global_step t.model t.optimizer
      run_batches dyn n
        { t with model := r.1, optimizer := r.2.1, global_step := t.global_step + 1 }
        (acc + r.2.2)

/-- The epoch loop of `TTSTrainer.train`, carrying the list of checkpoint
writes performed so far: set `self.epoch`, run the batches, step the
scheduler on the mean epoch loss, update `best_loss`, write the periodic
and/or best checkpoints, and finally write `final_model.pt`; an interrupt
escapes with the trainer state and the writes already on disk. -/
def train_epochs {M O S : Type} (dyn : TrainDynamics M O S)
    (num_batches checkpoint_every : ℕ) :
    ℕ → ℕ → TrainerState M O S → List (CkptPath × Checkpoint M O S) →
    Except (TrainerState M O S × List (CkptPath × Checkpoint M O S))
      (TrainerState M O S × List (CkptPath × Checkpoint M O S))
  | 0, _, t, writes => .ok (t, writes ++ [(.finalFile, save_checkpoint t)])
  | remaining + 1, e, t, writes =>
    match run_batches dyn num_batches { t with epoch := e } 0 with
    | .error tInt => .error (tInt, writes)
    | .ok (t1, total) =>
      let avg : ℚ := total / num_batches
      let t2 := { t1 with scheduler := dyn.sched_step t1.scheduler avg }
      let is_best : Bool := decide ((avg : WithTop ℚ) < t2.best_loss)
      let t3 := if is_best then { t2 with best_loss := (avg : WithTop ℚ) } else t2
      let newWrites :=
        if (e + 1) % checkpoint_every = 0 || is_best then
          (CkptPath.epochFile (e + 1), save_checkpoint t3) ::
            (if is_best then [(CkptPath.bestFile, save_checkpoint t3)] else [])
        else []
      train_epochs dyn num_batches checkpoint_every remaining (e + 1) t3
        (writes ++ newWrites)

/-- The `try/except KeyboardInterrupt` around `trainer.train(...)` in
`train_voice_model.py::main`: on interrupt, unconditionally write
`interrupted_checkpoint.pt` from the trainer's current state before
returning. Returns the final trainer state and every checkpoint write of the
run, in order. -/
def main_train {M O S : Type} (dyn : TrainDynamics M O S)
    (num_batches checkpoint_every epochs : ℕ) (t0 : TrainerState M O S) :
    TrainerState M O S × List (CkptPath × Checkpoint M O S) :=
  match train_epochs dyn num_batches checkpoint_every epochs 0 t0 [] with
  | .ok (t, writes) => (t, writes)
  | .error (t, writes) => (t, writes ++ [(.interruptedFile, save_checkpoint t)])

/-- Whether the run of `train_epochs` is interrupted. -/
def run_interrupted {M O S : Type} (dyn : TrainDynamics M O S)
    (num_batches checkpoint_every epochs : ℕ) (t0 : TrainerState M O S) : Bool :=
  match train_epochs dyn num_batches checkpoint_every epochs 0 t0 [] with
  | .ok _ => false
  | .error _ => true

/-- The trainer state at the moment of the interrupt (the initial state when
the run is not interrupted). -/
def interrupt_state {M O S : Type} (dyn : TrainDynamics M O S)
    (num_batches checkpoint_every epochs : ℕ) (t0 : TrainerState M O S) :
    TrainerState M O S :=
  match train_epochs dyn num_batches checkpoint_every epochs 0 t0 [] with
  | .ok _ => t0
  | .error (t, _) => t

/- ## Synthesizer construction (TTSSynthesizer.__init__, src/inference.py) -/

/-- The tensor shapes of a `Tacotron2` state dict that depend on the
vocabulary size and the mel channel count: the encoder embedding has
`vocab_size` rows and the decoder's output projection has `n_mels` output
features. -/
structure StateShapes where
  embedding_rows : ℕ
  linear_out_features : ℕ
  deriving DecidableEq

/-- The shapes a `Tacotron2(config)` allocates. -/
def shapes_of (config : TTSConfig) : StateShapes :=
  { embedding_rows := vocab_size config
    linear_out_features := config.n_mels }

/-- A checkpoint file as read by `torch.load`: the optional bundled config
(`checkpoint.get("config", TTSConfig())`) and the shapes of the saved
`model_state_dict` tensors. -/
structure CheckpointFile where
  config : Option TTSConfig
  state_shapes : StateShapes

/-- How constructing a `TTSSynthesizer` can fail. `stateDictSizeMismatch` is
the `RuntimeError` PyTorch's `load_state_dict` raises on size mismatch.
`incompatibleCheckpoint` is modelled from the spec: the dedicated
`IncompatibleCheckpoint` error the spec names for a vocabulary-size or
mel-channel mismatch; no code path in `src/inference.py` produces it. -/
inductive InitError
  | stateDictSizeMismatch
  | incompatibleCheckpoint
  deriving DecidableEq

/-- The observable outcome of `TTSSynthesizer.__init__`:
`built_model_config` records the config `Tacotron2(config)` was constructed
with (`none` would mean construction never happened), and `result` is the
loaded synthesizer's config or the error raised. -/
structure SynthInitResult where
  built_model_config : Option TTSConfig
  result : Except InitError TTSConfig

/-- `TTSSynthesizer.__init__` given a loaded checkpoint and the optional
explicit `config` argument: resolve the config (the argument if given, else
the checkpoint's bundled config, else `TTSConfig()` defaults), ALWAYS build
`Tacotron2(config)`, then `load_state_dict`, which fails iff the allocated
shapes differ from the checkpoint's. No configuration compatibility check
exists before the model is built. -/
def synth_init (checkpoint : CheckpointFile) (config : Option TTSConfig) :
    SynthInitResult :=
  let resolved :=
    match config with
    | some c => c
    | none => checkpoint.config.getD default_config
  if shapes_of resolved = checkpoint.state_shapes then
    { built_model_config := some resolved, result := .ok resolved }
  else
    { built_model_config := some resolved, result := .error .stateDictSizeMismatch }

/-- A config differing from the default only by one extra character (so its
vocabulary size is 71 instead of 70). -/
def enlarged_config : TTSConfig :=
  { default_config with characters := default_config.characters ++ [Char.ofNat 64] }

/-- A well-formed checkpoint produced under the default config. -/
def default_checkpoint : CheckpointFile :=
  { config := some default_config
    state_shapes := shapes_of default_config }

/- # Theorems -/

/- ## Dictionary lemmas -/

theorem dictLookup_eq_none_iff {α β : Type} [DecidableEq α] (l : List (α × β)) (c : α) :
    dictLookup l c = none ↔ c ∉ l.map Prod.fst := by
  induction l with
  | nil => simp [dictLookup]
  | cons kv rest ih =>
    obtain ⟨k, v⟩ := kv
    simp only [dictLookup, List.map_cons, List.mem_cons]
    cases h : dictLookup rest c with
    | some w =>
      have hmem : c ∈ rest.map Prod.fst := by
        by_contra hcon
        simp [ih.mpr hcon] at h
      simp [hmem]
    | none =>
      have hmem : c ∉ rest.map Prod.fst := ih.mp h
      by_cases hck : c = k <;> simp [hck, hmem]

theorem mem_of_dictLookup_eq_some {α β : Type} [DecidableEq α] {l : List (α × β)}
    {c : α} {v : β} (h : dictLookup l c = some v) : (c, v) ∈ l := by
  induction l with
  | nil => simp [dictLookup] at h
  | cons kv rest ih =>
    obtain ⟨k, w⟩ := kv
    simp only [dictLookup] at h
    cases h2 : dictLookup rest c with
    | some u =>
      rw [h2] at h
      simp only [Option.some.injEq] at h
      subst h
      exact List.mem_cons_of_mem _ (ih h2)
    | none =>
      rw [h2] at h
      by_cases hck : c = k
      · simp only [if_pos hck, Option.some.injEq] at h
        subst h; subst hck
        exact List.mem_cons_self _ _
      · simp [if_neg hck] at h

theorem dictLookup_swap_of_mem {α β : Type} [DecidableEq α] [DecidableEq β]
    {l : List (α × β)} {c : α} {v : β}
    (hnd : (l.map Prod.snd).Nodup) (hmem : (c, v) ∈ l) :
    dictLookup (l.map Prod.swap) v = some c := by
  induction l with
  | nil => simp at hmem
  | cons kv rest ih =>
    obtain ⟨k, w⟩ := kv
    simp only [List.map_cons, Prod.swap_prod_mk, dictLookup]
    simp only [List.map_cons, List.nodup_cons] at hnd
    rcases List.mem_cons.mp hmem with heq | hmem2
    · injection heq with h1 h2
      subst h1; subst h2
      have hnone : dictLookup (rest.map Prod.swap) v = none := by
        rw [dictLookup_eq_none_iff]
        simpa [List.map_map, Function.comp] using hnd.1
      rw [hnone]
      simp
    · rw [ih hnd.2 hmem2]

theorem firstKeys_eq_of_nodup {α β : Type} [DecidableEq α] {l : List (α × β)}
    (h : (l.map Prod.fst).Nodup) : firstKeys l = l.map Prod.fst := by
  induction l with
  | nil => simp [firstKeys]
  | cons kv rest ih =>
    obtain ⟨k, v⟩ := kv
    simp only [List.map_cons, List.nodup_cons] at h
    rw [firstKeys, ih h.2]
    simp only [List.map_cons]
    congr 1
    apply List.filter_eq_self.mpr
    intro x hx
    simp only [Bool.not_eq_eq_eq_not, Bool.not_true, beq_eq_false_iff_ne, ne_eq]
    rintro rfl
    exact h.1 hx

theorem dictLookup_cons_of_isSome {α β : Type} [DecidableEq α] {rest : List (α × β)}
    {c : α} {u : β} (k : α) (v : β) (h : dictLookup rest c = some u) :
    dictLookup ((k, v) :: rest) c = some u := by
  simp [dictLookup, h]

theorem pythonItems_eq_of_nodup {α β : Type} [DecidableEq α] {l : List (α × β)}
    (h : (l.map Prod.fst).Nodup) : pythonItems l = l := by
  induction l with
  | nil => rfl
  | cons kv rest ih =>
    obtain ⟨k, v⟩ := kv
    have hcons := h
    simp only [List.map_cons, List.nodup_cons] at hcons
    have hlk : dictLookup ((k, v) :: rest) k = some v := by
      have hnone : dictLookup rest k = none := (dictLookup_eq_none_iff _ _).mpr hcons.1
      simp [dictLookup, hnone]
    unfold pythonItems
    rw [firstKeys_eq_of_nodup h]
    simp only [List.map_cons]
    rw [List.filterMap_cons]
    simp only [hlk, Option.map_some']
    congr 1
    have hcongr : ∀ x ∈ rest.map Prod.fst,
        (dictLookup ((k, v) :: rest) x).map (fun w => (x, w))
          = (dictLookup rest x).map (fun w => (x, w)) := by
      intro x hx
      have : (dictLookup rest x).isSome := by
        rw [Option.isSome_iff_ne_none]
        intro hnone
        exact (dictLookup_eq_none_iff rest x).mp hnone hx
      obtain ⟨u, hu⟩ := Option.isSome_iff_exists.mp this
      rw [hu, dictLookup_cons_of_isSome k v hu]
    rw [List.filterMap_congr hcongr]
    have := ih hcons.2
    unfold pythonItems at this
    rw [firstKeys_eq_of_nodup hcons.2] at this
    exact this

/- ## TextProcessor facts -/

theorem char_to_idx_items_fst (config : TTSConfig) :
    (char_to_idx_items config).map Prod.fst = vocab config := by
  simp only [char_to_idx_items, List.map_cons, List.map_map, vocab]
  congr 1
  have : (Prod.fst ∘ fun p : ℕ × Char => (p.2, p.1 + 1)) = Prod.snd := rfl
  rw [this]
  simp

theorem char_to_idx_items_snd (config : TTSConfig) :
    (char_to_idx_items config).map Prod.snd
      = 0 :: (List.range config.characters.length).map (fun i => i + 1) := by
  simp only [char_to_idx_items, List.map_cons, List.map_map]
  congr 1
  have : (Prod.snd ∘ fun p : ℕ × Char => (p.2, p.1 + 1))
      = (fun i => i + 1) ∘ Prod.fst := rfl
  rw [this, ← List.map_map]
  simp

theorem char_to_idx_values_nodup (config : TTSConfig) :
    ((char_to_idx_items config).map Prod.snd).Nodup := by
  rw [char_to_idx_items_snd]
  refine List.nodup_cons.mpr ⟨?_, ?_⟩
  · simp
  · exact (List.nodup_range _).map (fun a b h => by omega)

theorem char_to_idx_isSome_iff (config : TTSConfig) (c : Char) :
    (char_to_idx config c).isSome ↔ c ∈ vocab config := by
  rw [← char_to_idx_items_fst]
  rw [Option.isSome_iff_ne_none]
  constructor
  · intro h
    by_contra hmem
    exact h ((dictLookup_eq_none_iff _ _).mpr hmem)
  · intro h hnone
    exact (dictLookup_eq_none_iff _ _).mp hnone h

theorem default_keys_nodup :
    ((char_to_idx_items default_config).map Prod.fst).Nodup := by
  rw [char_to_idx_items_fst]
  decide

theorem idx_to_char_inv {c : Char} {v : ℕ}
    (h : char_to_idx default_config c = some v) :
    idx_to_char default_config v = some c := by
  have hmem := mem_of_dictLookup_eq_some h
  unfold idx_to_char
  rw [pythonItems_eq_of_nodup default_keys_nodup]
  exact dictLookup_swap_of_mem (char_to_idx_values_nodup _) hmem

theorem roundtrip_eq_filter (text : List Char) :
    sequence_to_text default_config (text_to_sequence default_config text)
      = text.filter (fun c => (char_to_idx default_config c).isSome) := by
  induction text with
  | nil => rfl
  | cons c rest ih =>
    cases h : char_to_idx default_config c with
    | none =>
      simp only [text_to_sequence, List.filterMap_cons, h] at ih ⊢
      rw [List.filter_cons_of_neg (by simp [h])]
      exact ih
    | some v =>
      have hv := idx_to_char_inv h
      simp only [text_to_sequence, List.filterMap_cons, h] at ih ⊢
      rw [List.filter_cons_of_pos (by simp [h])]
      simp only [sequence_to_text, List.filterMap_cons, hv] at ih ⊢
      rw [ih]

theorem fst_lt_of_mem_enum {α : Type} {l : List α} {p : ℕ × α} (h : p ∈ l.enum) :
    p.1 < l.length := by
  have := List.mem_enum_iff_getElem?.mp h
  exact (List.getElem?_eq_some.mp (by simpa using this)).1

theorem char_to_idx_bounds (config : TTSConfig) {c : Char} {v : ℕ}
    (h : char_to_idx config c = some v) :
    v < vocab_size config ∧ (c ≠ config.pad_token → 1 ≤ v) := by
  have hmem := mem_of_dictLookup_eq_some h
  simp only [char_to_idx_items, List.mem_cons] at hmem
  rcases hmem with heq | hmem2
  · injection heq with h1 h2
    subst h1; subst h2
    exact ⟨by simp [vocab_size], fun hc => (hc rfl).elim⟩
  · obtain ⟨p, hp, hpe⟩ := List.mem_map.mp hmem2
    injection hpe with h1 h2
    subst h1; subst h2
    have hlt := fst_lt_of_mem_enum hp
    constructor
    · simp only [vocab_size]; omega
    · intro _; omega

/-- C4: for text containing only characters of the configured vocabulary (the
key set of `char_to_idx`: the pad token plus `characters`),
`sequence_to_text(text_to_sequence(text))` returns the text unchanged; in
general the round trip returns the text with exactly the out-of-vocabulary
characters omitted. -/
theorem C4_vocabulary_closure (text : List Char) :
    sequence_to_text default_config (text_to_sequence default_config text)
      = text.filter (fun c => decide (c ∈ vocab default_config))
    ∧ ((∀ c ∈ text, c ∈ vocab default_config) →
        sequence_to_text default_config (text_to_sequence default_config text) = text) := by
  have hfilter : sequence_to_text default_config (text_to_sequence default_config text)
      = text.filter (fun c => decide (c ∈ vocab default_config)) := by
    rw [roundtrip_eq_filter]
    apply List.filter_congr
    intro c _
    rcases hb : char_to_idx default_config c with _ | v
    · have hnot : c ∉ vocab default_config := by
        rw [← char_to_idx_isSome_iff]; simp [hb]
      simp [hb, hnot]
    · have hyes : c ∈ vocab default_config := by
        rw [← char_to_idx_isSome_iff]; simp [hb]
      simp [hb, hyes]
  refine ⟨hfilter, fun h => ?_⟩
  rw [hfilter]
  apply List.filter_eq_self.mpr
  intro c hc
  simpa using h c hc

/-- Witness for C4 at the concrete text "Hello world". -/
theorem C4_vocabulary_closure_witness :
    (∀ c ∈ ("Hello world").toList, c ∈ vocab default_config)
    ∧ sequence_to_text default_config
        (text_to_sequence default_config ("Hello world").toList)
        = ("Hello world").toList :=
  ⟨by decide, (C4_vocabulary_closure ("Hello world").toList).2 (by decide)⟩

/-- C10 counterexample: the pad token `_` (`Char.ofNat 95`) is itself a key of
`char_to_idx`, so `text_to_sequence` emits the padding index 0 for it,
refuting "the padding index 0 is never emitted for any input character". -/
theorem C10_counterexample :
    ¬ (∀ v ∈ text_to_sequence default_config [Char.ofNat 95],
        1 ≤ v ∧ v < vocab_size default_config) := by
  decide

/-- C10 amended: for every config and every text containing no occurrence of
the pad token character, every emitted index lies in `[1, vocab_size)`; hence
a zero entry in that sample's padded text row can only come from padding
(i.e. only at positions past the sequence's length). -/
theorem C10_amended (config : TTSConfig) (text : List Char)
    (hpad : ∀ c ∈ text, c ≠ config.pad_token) :
    (∀ v ∈ text_to_sequence config text, 1 ≤ v ∧ v < vocab_size config)
    ∧ (∀ j, text_padded_entry (text_to_sequence config text) j = 0 →
        (text_to_sequence config text).length ≤ j) := by
  have hmain : ∀ v ∈ text_to_sequence config text, 1 ≤ v ∧ v < vocab_size config := by
    intro v hv
    simp only [text_to_sequence, List.mem_filterMap] at hv
    obtain ⟨c, hc, hlook⟩ := hv
    have hb := char_to_idx_bounds config hlook
    exact ⟨hb.2 (hpad c hc), hb.1⟩
  refine ⟨hmain, ?_⟩
  intro j hj
  by_contra hlt
  push_neg at hlt
  rw [text_padded_entry, List.getD_eq_getElem _ _ hlt] at hj
  have h1 := (hmain _ (List.getElem_mem hlt)).1
  rw [hj] at h1
  exact absurd h1 (by norm_num)

/-- Witness for C10 (amended) at the concrete text "Hi". -/
theorem C10_amended_witness :
    (∀ c ∈ ("Hi").toList, c ≠ default_config.pad_token)
    ∧ (∀ v ∈ text_to_sequence default_config ("Hi").toList,
        1 ≤ v ∧ v < vocab_size default_config) :=
  ⟨by decide, (C10_amended default_config ("Hi").toList (by decide)).1⟩

/- ## Manifest loading (C5) -/

theorem load_loop_eq (fs : List Char → Bool) (ms : Option ℕ) :
    ∀ (lines : List (List Char)) (i : ℕ),
    load_loop fs ms i lines
      = ((effTake ms i lines).filterMap parseLine).filter (fun p => fs p.1) := by
  intro lines
  induction lines with
  | nil =>
    intro i
    cases ms with
    | none => rfl
    | some m => simp only [load_loop, effTake, List.take_nil]; split <;> rfl
  | cons line rest ih =>
    intro i
    by_cases hcap : capReached ms i = true
    · simp only [load_loop, if_pos hcap]
      cases ms with
      | none => simp [capReached] at hcap
      | some m =>
        simp only [capReached, Bool.and_eq_true, decide_eq_true_eq] at hcap
        have hz : m - i = 0 := by omega
        simp [effTake, hcap.1, hz]
    · have hstep : effTake ms i (line :: rest) = line :: effTake ms (i + 1) rest := by
        cases ms with
        | none => rfl
        | some m =>
          simp only [capReached, Bool.and_eq_true, decide_eq_true_eq, not_and,
            not_le] at hcap
          unfold effTake
          by_cases hm : m = 0
          · simp [hm]
          · have him : i < m := hcap hm
            obtain ⟨d, hd⟩ : ∃ d, m - i = d + 1 := ⟨m - i - 1, by omega⟩
            simp only [if_neg hm]
            rw [hd, List.take_succ_cons]
            congr 2
            omega
      simp only [load_loop, if_neg hcap, hstep]
      cases hp : parseLine line with
      | none => simp [List.filterMap_cons, hp, ih (i + 1)]
      | some p =>
        obtain ⟨a, t⟩ := p
        simp only [List.filterMap_cons, hp]
        by_cases hfs : fs a = true
        · rw [List.filter_cons_of_pos (by simpa using hfs)]
          simp [hfs, ih (i + 1)]
        · rw [List.filter_cons_of_neg (by simpa using hfs)]
          simp [hfs, ih (i + 1)]

/-- C5: dataset construction raises the manifest-not-found error iff the
manifest path does not exist; when it exists, the retained samples are
exactly the parseable rows (within the cap) whose audio file exists — rows
with missing audio are silently excluded — and `__len__` counts exactly the
retained rows. -/
theorem C5_manifest_error_handling (fs : List Char → Bool)
    (lines : List (List Char)) (path : List Char) (ms : Option ℕ) :
    (load_metadata fs lines path ms = .error .manifestNotFound ↔ fs path = false)
    ∧ (∀ samples, load_metadata fs lines path ms = .ok samples →
        (∀ p ∈ samples, fs p.1 = true)
        ∧ samples = ((effTake ms 0 lines).filterMap parseLine).filter (fun p => fs p.1)
        ∧ dataset_len samples
            = (((effTake ms 0 lines).filterMap parseLine).filter (fun p => fs p.1)).length) := by
  constructor
  · unfold load_metadata
    by_cases h : fs path = true
    · simp [h]
    · simp only [Bool.not_eq_true] at h
      simp [h]
  · intro samples hok
    unfold load_metadata at hok
    by_cases h : fs path = true
    · rw [if_pos h] at hok
      have hs : samples = load_loop fs ms 0 lines := by
        injection hok with h2
        exact h2.symm
      rw [hs, load_loop_eq fs ms lines 0]
      refine ⟨?_, rfl, rfl⟩
      intro p hp
      exact (List.mem_filter.mp hp).2
    · rw [if_neg h] at hok
      cases hok

/-- Concrete file system for the C5 witness: only the manifest and one audio
file exist. -/
def fsW : List Char → Bool :=
  fun s => s == ("m.txt").toList || s == ("a.wav").toList

/-- Concrete manifest content for the C5 witness: one good row, one row with
missing audio, one malformed row. -/
def linesW : List (List Char) :=
  [("a.wav|hello").toList, ("b.wav|bye").toList, ("bad").toList]

/-- Witness for C5: on the concrete file system the retained samples are
exactly the good row. -/
theorem C5_manifest_error_handling_witness :
    load_metadata fsW linesW ("m.txt").toList none
        = .ok [(("a.wav").toList, ("hello").toList)]
    ∧ [(("a.wav").toList, ("hello").toList)]
        = ((effTake none 0 linesW).filterMap parseLine).filter (fun p => fsW p.1) :=
  ⟨rfl,
    ((C5_manifest_error_handling fsW linesW ("m.txt").toList none).2
      [(("a.wav").toList, ("hello").toList)] rfl).2.1⟩

/- ## Gate collation (C2) -/

theorem mem_le_foldr_max (l : List ℕ) (x : ℕ) (h : x ∈ l) : x ≤ l.foldr max 0 := by
  induction l with
  | nil => simp at h
  | cons a rest ih =>
    rcases List.mem_cons.mp h with rfl | h2
    · exact le_max_left _ _
    · exact le_trans (ih h2) (le_max_right _ _)

/-- C2 counterexample: for the batch with mel lengths `[5, 3, 8]`, the first
sample's gate row is already 1 at index 4 (= `mel_len - 1`), refuting the
claim that it is 0 at every index before 5. -/
theorem C2_counterexample :
    ¬ (∀ j < 5, ((collate_gate [5, 3, 8]).getD 0 []).getD j 0 = (0 : ℚ)) := by
  decide

/-- C2 amended: in every collated batch, sample `i`'s gate row is 1 at index
`mel_len - 1` (the sample's true final frame) and at every later index, and 0
strictly before index `mel_len - 1`; for mel lengths `[5, 3, 8]` the 1s start
at indices 4, 2 and 7 respectively. -/
theorem C2_amended (mel_lengths : List ℕ) (i j : ℕ)
    (hi : i < mel_lengths.length) (hlen : 1 ≤ mel_lengths.getD i 0)
    (hj : j < mel_lengths.foldr max 0) :
    ((collate_gate mel_lengths).getD i []).getD j 0
      = if mel_lengths.getD i 0 - 1 ≤ j then (1 : ℚ) else 0 := by
  have hrow : (collate_gate mel_lengths).getD i []
      = gate_row (mel_lengths.getD i 0) (mel_lengths.foldr max 0) := by
    unfold collate_gate
    rw [List.getD_eq_getElem _ _ (by simpa using hi), List.getElem_map,
      List.getD_eq_getElem _ _ hi]
  rw [hrow]
  unfold gate_row
  rw [List.getD_eq_getElem _ _ (by simpa using hj), List.getElem_map,
    List.getElem_range]
  have hmem : mel_lengths.getD i 0 ∈ mel_lengths := by
    rw [List.getD_eq_getElem _ _ hi]
    exact List.getElem_mem hi
  have hle := mem_le_foldr_max _ _ hmem
  have hss : slice_start ((mel_lengths.getD i 0 : ℤ) - 1) (mel_lengths.foldr max 0)
      = mel_lengths.getD i 0 - 1 := by
    unfold slice_start
    rw [if_neg (by omega)]
    have htn : ((mel_lengths.getD i 0 : ℤ) - 1).toNat = mel_lengths.getD i 0 - 1 := by
      omega
    rw [htn]
    omega
  rw [hss]

/-- Witness for C2 (amended) at the batch `[5, 3, 8]`, row 0, column 4. -/
theorem C2_amended_witness :
    0 < ([5, 3, 8] : List ℕ).length ∧ 1 ≤ ([5, 3, 8] : List ℕ).getD 0 0
    ∧ 4 < ([5, 3, 8] : List ℕ).foldr max 0
    ∧ ((collate_gate [5, 3, 8]).getD 0 []).getD 4 0
        = if ([5, 3, 8] : List ℕ).getD 0 0 - 1 ≤ 4 then (1 : ℚ) else 0 :=
  ⟨by decide, by decide, by decide,
    C2_amended [5, 3, 8] 0 4 (by decide) (by decide) (by decide)⟩

/- ## Mel normalization (C7) -/

theorem list_sum_map_sub (l : List ℝ) (μ : ℝ) :
    (l.map (fun x => x - μ)).sum = l.sum - l.length * μ := by
  induction l with
  | nil => simp
  | cons a rest ih =>
    simp only [List.map_cons, List.sum_cons, List.length_cons, ih]
    push_cast
    ring

theorem list_sum_map_mul_right (l : List ℝ) (r : ℝ) :
    (l.map (fun x => x * r)).sum = l.sum * r := by
  induction l with
  | nil => simp
  | cons a rest ih =>
    simp only [List.map_cons, List.sum_cons, ih]
    ring

theorem nrmEps_pos : (0 : ℝ) < nrmEps := by
  unfold nrmEps
  positivity

theorem tstd_nonneg (l : List ℝ) : 0 ≤ tstd l := Real.sqrt_nonneg _

theorem sum_sub_tmean (l : List ℝ) : (l.map (fun x => x - tmean l)).sum = 0 := by
  cases l with
  | nil => simp
  | cons a rest =>
    rw [list_sum_map_sub]
    unfold tmean
    have h : ((a :: rest).length : ℝ) ≠ 0 := by
      simp only [List.length_cons]
      push_cast
      positivity
    field_simp

theorem tmean_normalize (l : List ℝ) : tmean (normalize_mel l) = 0 := by
  have hcomp : l.map (fun x => (x - tmean l) / (tstd l + nrmEps))
      = (l.map (fun x => x - tmean l)).map (fun y => y * (tstd l + nrmEps)⁻¹) := by
    rw [List.map_map]
    congr 1
  unfold tmean normalize_mel
  rw [hcomp, list_sum_map_mul_right, sum_sub_tmean]
  simp

theorem tstd_normalize (l : List ℝ) :
    tstd (normalize_mel l) = tstd l / (tstd l + nrmEps) := by
  have hcpos : 0 < tstd l + nrmEps :=
    add_pos_of_nonneg_of_pos (tstd_nonneg l) nrmEps_pos
  have hmap : (normalize_mel l).map (fun x => (x - tmean (normalize_mel l)) ^ 2)
      = (l.map (fun x => (x - tmean l) ^ 2)).map
          (fun y => y * (((tstd l + nrmEps) ^ 2)⁻¹)) := by
    rw [tmean_normalize]
    unfold normalize_mel
    rw [List.map_map, List.map_map]
    congr 1
    funext x
    simp only [Function.comp_apply, sub_zero]
    rw [div_pow, div_eq_mul_inv]
  have hlen : (normalize_mel l).length = l.length := by
    unfold normalize_mel
    exact List.length_map _ _
  have hS : 0 ≤ (l.map (fun x => (x - tmean l) ^ 2)).sum / ((l.length : ℝ) - 1) := by
    cases l with
    | nil => simp
    | cons a rest =>
      apply div_nonneg
      · apply List.sum_nonneg
        intro x hx
        obtain ⟨y, _, rfl⟩ := List.mem_map.mp hx
        positivity
      · simp only [List.length_cons]
        push_cast
        linarith
  have hL : tstd (normalize_mel l)
      = Real.sqrt (((normalize_mel l).map
          (fun x => (x - tmean (normalize_mel l)) ^ 2)).sum
        / (((normalize_mel l).length : ℝ) - 1)) := rfl
  rw [hL, hmap, list_sum_map_mul_right, hlen]
  rw [show (l.map (fun x => (x - tmean l) ^ 2)).sum * (((tstd l + nrmEps) ^ 2)⁻¹)
        / ((l.length : ℝ) - 1)
      = ((l.map (fun x => (x - tmean l) ^ 2)).sum / ((l.length : ℝ) - 1))
        / (tstd l + nrmEps) ^ 2 by ring]
  rw [Real.sqrt_div hS, Real.sqrt_sq hcpos.le]
  rfl

theorem tstd_triple (s : ℝ) (hs : 0 ≤ s) :
    tmean [-s, 0, s] = 0 ∧ tstd [-s, 0, s] = s ∧
    normalize_mel [-s, 0, s]
      = [-(s / (s + nrmEps)), 0, s / (s + nrmEps)] := by
  have hmean : tmean [-s, 0, s] = 0 := by
    unfold tmean
    norm_num
  have hstd : tstd [-s, 0, s] = s := by
    unfold tstd
    rw [hmean]
    simp only [List.map_cons, List.map_nil, List.sum_cons, List.sum_nil,
      List.length_cons, List.length_nil]
    rw [show ((-s - 0) ^ 2 + ((0 - 0) ^ 2 + ((s - 0) ^ 2 + 0)))
          / (((0 : ℕ) + 1 + 1 + 1 : ℕ) - 1 : ℝ) = s ^ 2 by push_cast; ring]
    exact Real.sqrt_sq hs
  refine ⟨hmean, hstd, ?_⟩
  unfold normalize_mel
  rw [hmean, hstd]
  simp [neg_div]

/-- The concrete non-constant mel `[-10⁻²⁰, 0, 10⁻²⁰]` whose sample standard
deviation (10⁻²⁰) is far below the `1e-8` stabiliser. -/
noncomputable def tinyMel : List ℝ := [-(1 / 10 ^ 20), 0, 1 / 10 ^ 20]

/-- C7 counterexample: `tinyMel` has non-constant entries (positive standard
deviation), yet `normalize_mel` applied to its own output has standard
deviation below 1/2 — nowhere near 1 — refuting the claim for every mel
tensor with non-constant entries. -/
theorem C7_counterexample :
    0 < tstd tinyMel
    ∧ tstd (normalize_mel (normalize_mel tinyMel)) < 1 / 2 := by
  have h20 : (0 : ℝ) ≤ 1 / 10 ^ 20 := by positivity
  have hstiny : tstd tinyMel = 1 / 10 ^ 20 := by
    unfold tinyMel
    exact (tstd_triple (1 / 10 ^ 20) h20).2.1
  have hε := nrmEps_pos
  constructor
  · rw [hstiny]
    positivity
  · have h1 := tstd_normalize tinyMel
    have h2 := tstd_normalize (normalize_mel tinyMel)
    have ht1nn : 0 ≤ tstd (normalize_mel tinyMel) := tstd_nonneg _
    have ha : tstd (normalize_mel tinyMel) ≤ (1 : ℝ) / 10 ^ 12 := by
      rw [h1, hstiny]
      rw [div_le_iff₀ (by unfold nrmEps; positivity)]
      unfold nrmEps
      norm_num
    calc tstd (normalize_mel (normalize_mel tinyMel))
        = tstd (normalize_mel tinyMel) / (tstd (normalize_mel tinyMel) + nrmEps) :=
          h2
      _ ≤ tstd (normalize_mel tinyMel) / nrmEps := by
          gcongr
          linarith
      _ ≤ ((1 : ℝ) / 10 ^ 12) / nrmEps := by
          gcongr
      _ < 1 / 2 := by
          unfold nrmEps
          norm_num

/-- C7 amended: `normalize_mel` subtracts the mel's own mean and divides by
its own standard deviation plus `1e-8`; for every mel whose sample standard
deviation is at least the `1e-8` stabiliser, applying `normalize_mel` to its
own output yields mean exactly 0 and standard deviation within `2e-8` of 1.
(For non-constant mels with standard deviation far below `1e-8` the double
normalization does NOT approach standard deviation 1 — see the
counterexample.) -/
theorem C7_amended (mel : List ℝ) (h : nrmEps ≤ tstd mel) :
    normalize_mel mel = mel.map (fun x => (x - tmean mel) / (tstd mel + nrmEps))
    ∧ tmean (normalize_mel (normalize_mel mel)) = 0
    ∧ |tstd (normalize_mel (normalize_mel mel)) - 1| ≤ 2 * nrmEps := by
  refine ⟨rfl, tmean_normalize _, ?_⟩
  have hε := nrmEps_pos
  have hσ0 : 0 < tstd mel := lt_of_lt_of_le hε h
  have h1 := tstd_normalize mel
  have h2 := tstd_normalize (normalize_mel mel)
  have hs1lb : 1 / 2 ≤ tstd (normalize_mel mel) := by
    rw [h1, le_div_iff₀ (by linarith)]
    linarith
  have hs1ub : tstd (normalize_mel mel) ≤ 1 := by
    rw [h1, div_le_one (by linarith)]
    linarith
  rw [h2]
  have hδpos : 0 < tstd (normalize_mel mel) + nrmEps := by linarith
  have hub : tstd (normalize_mel mel) / (tstd (normalize_mel mel) + nrmEps) ≤ 1 := by
    rw [div_le_one hδpos]
    linarith
  have hlb : 1 - 2 * nrmEps
      ≤ tstd (normalize_mel mel) / (tstd (normalize_mel mel) + nrmEps) := by
    rw [le_div_iff₀ hδpos]
    nlinarith
  rw [abs_le]
  constructor <;> linarith

/-- Witness for C7 (amended) at the concrete mel `[-1, 0, 1]` (standard
deviation exactly 1). -/
theorem C7_amended_witness :
    nrmEps ≤ tstd [-(1 : ℝ), 0, 1]
    ∧ tmean (normalize_mel (normalize_mel [-(1 : ℝ), 0, 1])) = 0 := by
  have hstd : tstd [-(1 : ℝ), 0, 1] = 1 := (tstd_triple 1 (by norm_num)).2.1
  have hh : nrmEps ≤ tstd [-(1 : ℝ), 0, 1] := by
    rw [hstd]
    unfold nrmEps
    norm_num
  exact ⟨hh, (C7_amended [-(1 : ℝ), 0, 1] hh).2.1⟩

/- ## Decoder inference (C1, C9) -/

theorem inferFrom_zero {σ : Type} (D : DecoderSim σ) (t : ℕ) :
    inferFrom D 0 t = [] := rfl

theorem inferFrom_succ_pos {σ : Type} (D : DecoderSim σ) (n t : ℕ)
    (h : stopAt D t) :
    inferFrom D (n + 1) t = [(melAt D t, gateAt D t)] := by
  unfold inferFrom
  simp only [inferSteps]
  rw [if_pos (show D.gate_threshold
    < sigmoid (D.decode_step (runFree D t).1 (runFree D t).2).2.1 from h)]
  rfl

theorem inferFrom_succ_neg {σ : Type} (D : DecoderSim σ) (n t : ℕ)
    (h : ¬ stopAt D t) :
    inferFrom D (n + 1) t = (melAt D t, gateAt D t) :: inferFrom D n (t + 1) := by
  unfold inferFrom
  simp only [inferSteps]
  rw [if_neg (show ¬ D.gate_threshold
    < sigmoid (D.decode_step (runFree D t).1 (runFree D t).2).2.1 from h)]
  rfl

theorem inferFrom_spec {σ : Type} (D : DecoderSim σ) :
    ∀ fuel t : ℕ,
    (inferFrom D fuel t).length ≤ fuel
    ∧ inferFrom D fuel t
        = (List.range (inferFrom D fuel t).length).map
            (fun j => (melAt D (t + j), gateAt D (t + j)))
    ∧ (∀ j, j + 1 < (inferFrom D fuel t).length → ¬ stopAt D (t + j))
    ∧ ((inferFrom D fuel t).length < fuel →
        stopAt D (t + (inferFrom D fuel t).length - 1))
    ∧ (0 < fuel → 0 < (inferFrom D fuel t).length)
    ∧ ((∀ j, j < fuel → ¬ stopAt D (t + j)) → (inferFrom D fuel t).length = fuel) := by
  intro fuel
  induction fuel with
  | zero =>
    intro t
    rw [inferFrom_zero]
    refine ⟨Nat.le_refl 0, rfl, ?_, ?_, ?_, ?_⟩
    · intro j hj; simp at hj
    · intro hlt; simp at hlt
    · intro h0; simp at h0
    · intro _; rfl
  | succ n ih =>
    intro t
    by_cases hstop : stopAt D t
    · rw [inferFrom_succ_pos D n t hstop]
      refine ⟨by simp, ?_, ?_, ?_, ?_, ?_⟩
      · simp [List.range_succ]
      · intro j hj
        simp at hj
      · intro _
        simpa using hstop
      · intro _; simp
      · intro hall
        exact absurd hstop (by simpa using hall 0 (Nat.succ_pos n))
    · rw [inferFrom_succ_neg D n t hstop]
      obtain ⟨ih1, ih2, ih3, ih4, ih5, ih6⟩ := ih (t + 1)
      refine ⟨?_, ?_, ?_, ?_, ?_, ?_⟩
      · simpa using Nat.succ_le_succ ih1
      · simp only [List.length_cons, List.range_succ_eq_map, List.map_cons,
          List.map_map]
        congr 1
        conv_lhs => rw [ih2]
        apply List.map_congr_left
        intro j _
        simp only [Function.comp_apply]
        rw [show t + 1 + j = t + (j + 1) from by omega]
      · intro j hj
        cases j with
        | zero => simpa using hstop
        | succ j2 =>
          have hj2 : j2 + 1 < (inferFrom D n (t + 1)).length := by
            simp only [List.length_cons] at hj
            omega
          have := ih3 j2 hj2
          rwa [show t + 1 + j2 = t + (j2 + 1) from by omega] at this
      · intro hlt
        simp only [List.length_cons] at hlt ⊢
        have hlen : (inferFrom D n (t + 1)).length < n := by omega
        have := ih4 hlen
        rwa [show t + 1 + (inferFrom D n (t + 1)).length - 1
            = t + ((inferFrom D n (t + 1)).length + 1) - 1 from by omega] at this
      · intro _
        simp
      · intro hall
        simp only [List.length_cons]
        have hrec : ∀ j, j < n → ¬ stopAt D (t + 1 + j) := by
          intro j hj
          have := hall (j + 1) (by omega)
          rwa [show t + (j + 1) = t + 1 + j from by omega] at this
        rw [ih6 hrec]

theorem inference_fst_eq {σ : Type} (D : DecoderSim σ) :
    (Decoder.inference D).1 = (inferFrom D D.max_decoder_steps 0).map Prod.fst :=
  rfl

/-- C1: `Decoder.inference` always returns within `max_decoder_steps` loop
iterations — the returned mel spectrogram has at most that many frames even
if the gate never crosses the threshold — and the loop stops early exactly
when `sigmoid(gate_output) > gate_threshold` (`stopAt`): no frame before the
last is a stopping frame, and if fewer than `max_decoder_steps` frames are
returned then the last frame's gate crossed the threshold. -/
theorem C1_inference_termination {σ : Type} (D : DecoderSim σ) :
    (Decoder.inference D).1.length ≤ D.max_decoder_steps
    ∧ (∀ j, j + 1 < (Decoder.inference D).1.length → ¬ stopAt D j)
    ∧ ((Decoder.inference D).1.length < D.max_decoder_steps →
        stopAt D ((Decoder.inference D).1.length - 1)) := by
  obtain ⟨h1, _, h3, h4, _, _⟩ := inferFrom_spec D D.max_decoder_steps 0
  have hlen : (Decoder.inference D).1.length
      = (inferFrom D D.max_decoder_steps 0).length := by
    rw [inference_fst_eq, List.length_map]
  refine ⟨hlen ▸ h1, ?_, ?_⟩
  · intro j hj
    have := h3 j (hlen ▸ hj)
    simpa using this
  · intro hlt
    have := h4 (hlen ▸ hlt)
    rw [hlen]
    simpa using this

/-- Witness for C1 at the concrete constant decoder. -/
theorem C1_inference_termination_witness :
    (Decoder.inference constSim).1.length ≤ constSim.max_decoder_steps :=
  (C1_inference_termination constSim).1

/-- C9: with a positive step budget, `Decoder.inference` returns at least one
mel frame; the returned frames are exactly the trajectory frames
`melAt 0 .. melAt (len-1)` (so the frame produced at the crossing step is
included, since the stop check runs after the frame is appended); no frame
before the last is a stopping frame; if the loop stopped before
`max_decoder_steps` the last frame is the first stopping frame; and if no
step within the budget crosses the threshold, exactly `max_decoder_steps`
frames are returned. -/
theorem C9_inference_frame_count {σ : Type} (D : DecoderSim σ)
    (hK : 0 < D.max_decoder_steps) :
    1 ≤ (Decoder.inference D).1.length
    ∧ (Decoder.inference D).1
        = (List.range (Decoder.inference D).1.length).map (melAt D)
    ∧ (∀ j, j + 1 < (Decoder.inference D).1.length → ¬ stopAt D j)
    ∧ ((Decoder.inference D).1.length < D.max_decoder_steps →
        stopAt D ((Decoder.inference D).1.length - 1))
    ∧ ((∀ j, j < D.max_decoder_steps → ¬ stopAt D j) →
        (Decoder.inference D).1.length = D.max_decoder_steps) := by
  obtain ⟨_, h2, h3, h4, h5, h6⟩ := inferFrom_spec D D.max_decoder_steps 0
  have hlen : (Decoder.inference D).1.length
      = (inferFrom D D.max_decoder_steps 0).length := by
    rw [inference_fst_eq, List.length_map]
  refine ⟨?_, ?_, ?_, ?_, ?_⟩
  · rw [hlen]
    exact h5 hK
  · rw [inference_fst_eq]
    conv_lhs => rw [h2]
    rw [List.map_map, List.length_map]
    apply List.map_congr_left
    intro j _
    simp
  · intro j hj
    have := h3 j (hlen ▸ hj)
    simpa using this
  · intro hlt
    have := h4 (hlen ▸ hlt)
    rw [hlen]
    simpa using this
  · intro hall
    rw [hlen]
    exact h6 (by simpa using hall)

/-- Witness for C9 at the concrete constant decoder (budget 3 > 0). -/
theorem C9_inference_frame_count_witness :
    0 < constSim.max_decoder_steps ∧ 1 ≤ (Decoder.inference constSim).1.length :=
  ⟨show 0 < constSim.max_decoder_steps from by norm_num [constSim],
    (C9_inference_frame_count constSim (by norm_num [constSim])).1⟩

/- ## Loss composition (C6) -/

/-- C6: the total training loss is exactly the unweighted sum of the
pre-refinement mel MSE, the post-refinement mel MSE (against the same
target), and the gate BCE-with-logits loss — and those are exactly the three
component entries of the returned loss dictionary. -/
theorem C6_loss_composition (mel_outputs mel_outputs_postnet gate_outputs
    mel_target gate_target : List ℝ) :
    (compute_loss mel_outputs mel_outputs_postnet gate_outputs
        mel_target gate_target).total
      = mse_loss mel_outputs mel_target
        + mse_loss mel_outputs_postnet mel_target
        + bce_with_logits_loss gate_outputs gate_target
    ∧ (compute_loss mel_outputs mel_outputs_postnet gate_outputs
        mel_target gate_target).mel = mse_loss mel_outputs mel_target
    ∧ (compute_loss mel_outputs mel_outputs_postnet gate_outputs
        mel_target gate_target).mel_postnet
      = mse_loss mel_outputs_postnet mel_target
    ∧ (compute_loss mel_outputs mel_outputs_postnet gate_outputs
        mel_target gate_target).gate
      = bce_with_logits_loss gate_outputs gate_target :=
  ⟨rfl, rfl, rfl, rfl⟩

/- ## Synthesizer construction (C3) -/

/-- C3 counterexample: constructing a synthesizer from a default-config
checkpoint with an explicitly passed configuration of larger vocabulary DOES
proceed to build the model with the mismatched running configuration
(refuting "never proceeds to build"), and the failure it then hits is the
state-dict size-mismatch error from `load_state_dict`, not a dedicated
`IncompatibleCheckpoint` error. -/
theorem C3_counterexample :
    (synth_init default_checkpoint (some enlarged_config)).built_model_config
        = some enlarged_config
    ∧ (synth_init default_checkpoint (some enlarged_config)).result
        = .error .stateDictSizeMismatch
    ∧ (synth_init default_checkpoint (some enlarged_config)).result
        ≠ .error .incompatibleCheckpoint
    ∧ vocab_size enlarged_config ≠ vocab_size default_config := by
  refine ⟨rfl, rfl, ?_, by decide⟩
  intro h
  rw [show (synth_init default_checkpoint (some enlarged_config)).result
      = Except.error InitError.stateDictSizeMismatch from rfl] at h
  injection h with h2
  exact InitError.noConfusion h2

/-- C3 amended: when an explicit configuration whose vocabulary size or
mel-channel count mismatches the checkpoint's state-dict shapes is passed,
construction fails — but with the `load_state_dict` size-mismatch error and
only after the model object has been built with the running configuration;
no code path ever produces the spec's `IncompatibleCheckpoint` error (and
when no configuration is passed, the checkpoint's own bundled configuration
or the defaults are used, so no pre-check exists at all). -/
theorem C3_amended (checkpoint : CheckpointFile) (config : TTSConfig)
    (hmis : vocab_size config ≠ checkpoint.state_shapes.embedding_rows
      ∨ TTSConfig.n_mels config ≠ checkpoint.state_shapes.linear_out_features) :
    (synth_init checkpoint (some config)).result = .error .stateDictSizeMismatch
    ∧ (synth_init checkpoint (some config)).built_model_config = some config
    ∧ ∀ (c2 : Option TTSConfig),
        (synth_init checkpoint c2).result ≠ .error .incompatibleCheckpoint := by
  have hneq : shapes_of config ≠ checkpoint.state_shapes := by
    intro he
    rcases hmis with h | h
    · exact h (by rw [← he]; rfl)
    · exact h (by rw [← he]; rfl)
  refine ⟨?_, ?_, ?_⟩
  · unfold synth_init
    rw [if_neg hneq]
  · unfold synth_init
    rw [if_neg hneq]
  · intro c2
    unfold synth_init
    by_cases hs : shapes_of (match c2 with
        | some c => c
        | none => checkpoint.config.getD default_config) = checkpoint.state_shapes
    · rw [if_pos hs]
      intro h
      exact Except.noConfusion h
    · rw [if_neg hs]
      intro h
      injection h with h2
      exact InitError.noConfusion h2

/-- Witness for C3 (amended) at the concrete mismatched configuration. -/
theorem C3_amended_witness :
    (vocab_size enlarged_config ≠ default_checkpoint.state_shapes.embedding_rows
      ∨ TTSConfig.n_mels enlarged_config
          ≠ default_checkpoint.state_shapes.linear_out_features)
    ∧ (synth_init default_checkpoint (some enlarged_config)).result
        = .error .stateDictSizeMismatch :=
  ⟨Or.inl (by decide),
    (C3_amended default_checkpoint enlarged_config (Or.inl (by decide))).1⟩

/- ## Interrupt handling in training (C8) -/

/-- C8: whenever the training run is interrupted (a `KeyboardInterrupt`
arrives at a batch boundary of the epoch loop), the entry point's handler
unconditionally appends a checkpoint write (to `interrupted_checkpoint.pt`)
as the last write before returning, and that checkpoint persists every
component of the trainer state at the interrupt — epoch counter, global
step, model, optimizer and scheduler state, and best loss — so no completed
work is lost. -/
theorem C8_interrupt_checkpoint {M O S : Type} (dyn : TrainDynamics M O S)
    (num_batches checkpoint_every epochs : ℕ) (t0 : TrainerState M O S)
    (hint : run_interrupted dyn num_batches checkpoint_every epochs t0 = true) :
    (main_train dyn num_batches checkpoint_every epochs t0).2.getLast?
      = some (CkptPath.interruptedFile,
          save_checkpoint (interrupt_state dyn num_batches checkpoint_every epochs t0))
    ∧ (save_checkpoint (interrupt_state dyn num_batches checkpoint_every epochs t0)).epoch
      = (interrupt_state dyn num_batches checkpoint_every epochs t0).epoch
    ∧ (save_checkpoint (interrupt_state dyn num_batches checkpoint_every epochs t0)).global_step
      = (interrupt_state dyn num_batches checkpoint_every epochs t0).global_step
    ∧ (save_checkpoint (interrupt_state dyn num_batches checkpoint_every epochs t0)).model_state_dict
      = (interrupt_state dyn num_batches checkpoint_every epochs t0).model
    ∧ (save_checkpoint (interrupt_state dyn num_batches checkpoint_every epochs t0)).optimizer_state_dict
      = (interrupt_state dyn num_batches checkpoint_every epochs t0).optimizer
    ∧ (save_checkpoint (interrupt_state dyn num_batches checkpoint_every epochs t0)).scheduler_state_dict
      = (interrupt_state dyn num_batches checkpoint_every epochs t0).scheduler
    ∧ (save_checkpoint (interrupt_state dyn num_batches checkpoint_every epochs t0)).best_loss
      = (interrupt_state dyn num_batches checkpoint_every epochs t0).best_loss := by
  refine ⟨?_, rfl, rfl, rfl, rfl, rfl, rfl⟩
  unfold run_interrupted at hint
  unfold main_train interrupt_state
  cases h : train_epochs dyn num_batches checkpoint_every epochs 0 t0 [] with
  | ok p =>
    rw [h] at hint
    simp at hint
  | error p =>
    obtain ⟨t, writes⟩ := p
    simp only
    exact List.getLast?_concat _

/-- Dynamics for the C8 witness: trivial model updates, an interrupt arriving
immediately at the first batch boundary. -/
def dynW : TrainDynamics Unit Unit Unit :=
  { batch_step := fun _ _ _ => ((), (), 0)
    sched_step := fun _ _ => ()
    interrupt := fun _ => true }

/-- Initial trainer state for the C8 witness. -/
def t0W : TrainerState Unit Unit Unit :=
  { epoch := 0
    global_step := 0
    model := ()
    optimizer := ()
    scheduler := ()
    best_loss := ⊤
    config := default_config }

/-- Witness for C8: one epoch of one batch with an immediate interrupt. -/
theorem C8_interrupt_checkpoint_witness :
    run_interrupted dynW 1 10 1 t0W = true
    ∧ (main_train dynW 1 10 1 t0W).2.getLast?
        = some (CkptPath.interruptedFile,
            save_checkpoint (interrupt_state dynW 1 10 1 t0W)) :=
  ⟨rfl, (C8_interrupt_checkpoint dynW 1 10 1 t0W rfl).1⟩
